import Mathlib

/-!
Shallow embedding of simple_vector.h (class SimpleVector and the free
comparison operators), together with proofs of the claims about it.

The container state is the owned buffer (an ArrayPtr in the source,
modelled as the list of values in the allocated block), the logical
size, and the reported capacity.  The companion header array_ptr.h is
not in the repository sources; per the specification, constructing an
ArrayPtr of length n allocates n default-constructed slots (modelled
as List.replicate n default), indexed access is raw access into the
block, and swap exchanges the owned blocks.
-/

namespace SVec

structure SimpleVector (α : Type) where
  buffer : List α
  size : Nat
  capacity : Nat
deriving Repr, DecidableEq

variable {α : Type}

/-- The live content of a vector: the elements at indices [0, size). -/
def live (v : SimpleVector α) : List α :=
  v.buffer.take v.size

/-- Well-formedness: size never exceeds capacity (spec invariant 1) and the
buffer owns exactly capacity slots (spec invariant 3). -/
def Wf (v : SimpleVector α) : Prop :=
  v.size ≤ v.capacity ∧ v.buffer.length = v.capacity

instance (v : SimpleVector α) : Decidable (Wf v) := by
  unfold Wf; infer_instance

/-- Default constructor: SimpleVector() — empty, no buffer. -/
def emptyVec : SimpleVector α :=
  { buffer := [], size := 0, capacity := 0 }

/-- SimpleVector(size_t size): size default-initialized elements.
Allocates ArrayPtr(size) and fills [0, size) with Type(). -/
def ofSize [Inhabited α] (n : Nat) : SimpleVector α :=
  { buffer := List.replicate n default, size := n, capacity := n }

/-- SimpleVector(size_t size, const Type and value). -/
def ofSizeValue (n : Nat) (value : α) : SimpleVector α :=
  { buffer := List.replicate n value, size := n, capacity := n }

/-- SimpleVector(std::initializer_list init): allocates ArrayPtr of
init.size() slots and copies init into them, so the buffer holds exactly
the listed values. -/
def fromList (init : List α) : SimpleVector α :=
  { buffer := init, size := init.length, capacity := init.length }

/-- SimpleVector(ReserveProxyObj res): capacity res.Get(), size 0, buffer of
capacity default-constructed slots. -/
def ofReserve [Inhabited α] (cap : Nat) : SimpleVector α :=
  { buffer := List.replicate cap default, size := 0, capacity := cap }

/-- GetSize(). -/
def GetSize (v : SimpleVector α) : Nat := v.size

/-- GetCapacity(). -/
def GetCapacity (v : SimpleVector α) : Nat := v.capacity

/-- IsEmpty(): !size_. -/
def IsEmpty (v : SimpleVector α) : Bool := v.size == 0

/-- At(index): throws std::out_of_range when index >= size, otherwise
returns the element at index. -/
def At [Inhabited α] (v : SimpleVector α) (index : Nat) : Except String α :=
  if index ≥ v.size then .error ""
  else .ok (v.buffer.getD index default)

/-- Clear(): size_ = 0, capacity and buffer untouched. -/
def Clear (v : SimpleVector α) : SimpleVector α :=
  { v with size := 0 }

/-- std::fill(first, last, x) over the slots [lo, hi) of a buffer. -/
def fillRange (buf : List α) (lo hi : Nat) (x : α) : List α :=
  buf.take lo ++ List.replicate (hi - lo) x ++ buf.drop hi

/-- Reserve(new_capacity): no-op when new_capacity <= capacity_; otherwise
allocates ArrayPtr(new_capacity), moves the live elements [0, size) into
its front, swaps the buffers in and sets capacity_ = new_capacity. -/
def Reserve [Inhabited α] (v : SimpleVector α) (new_capacity : Nat) : SimpleVector α :=
  if new_capacity ≤ v.capacity then v
  else
    { buffer := v.buffer.take v.size ++ List.replicate (new_capacity - v.size) default,
      size := v.size, capacity := new_capacity }

/-- Resize(new_size): shrink logically, or fill the newly exposed slots
[size, new_size) with Type(), reserving max(new_size, 2*capacity) first
when new_size exceeds capacity. -/
def Resize [Inhabited α] (v : SimpleVector α) (new_size : Nat) : SimpleVector α :=
  if new_size ≤ v.size then { v with size := new_size }
  else if new_size ≤ v.capacity then
    { v with buffer := fillRange v.buffer v.size new_size default, size := new_size }
  else
    let w := Reserve v (max new_size (2 * v.capacity))
    { w with buffer := fillRange w.buffer w.size new_size default, size := new_size }

/-- PushBack(item): place at slot size_ when size_ < capacity_, else grow
via Reserve(max(capacity_*2, 1)) and retry.  The source retries by a
recursive call; after the reserve the guard size_ < capacity_ always holds
(for a well-formed vector), so one retry is inlined here; the final
fallthrough branch is unreachable. -/
def PushBack [Inhabited α] (v : SimpleVector α) (item : α) : SimpleVector α :=
  if v.size < v.capacity then
    { v with buffer := v.buffer.set v.size item, size := v.size + 1 }
  else
    let w := Reserve v (max (v.capacity * 2) 1)
    if w.size < w.capacity then
      { w with buffer := w.buffer.set w.size item, size := w.size + 1 }
    else w

/-- Folding PushBack over a list of values, in order. -/
def pushAll [Inhabited α] (v : SimpleVector α) (l : List α) : SimpleVector α :=
  l.foldl PushBack v

/-- Insert(pos, value).  The iterator pos is represented by its distance
dist from cbegin(); the source computes dist = std::distance(cbegin(), pos)
and throws std::out_of_range when dist < 0 or dist > size_ (dist is a Nat
here, so the negative case cannot arise).  Three branches as in the source:
capacity 0, size == capacity (reallocate to 2*capacity), and the in-place
backward shift.  Returns the new state paired with the distance of the
returned iterator from begin(). -/
def Insert [Inhabited α] (v : SimpleVector α) (dist : Nat) (value : α) :
    Except String (SimpleVector α × Nat) :=
  if v.size < dist then .error "Insert(pos, lvalue) -> pos out of range"
  else if v.capacity = 0 then
    .ok ({ buffer := (List.replicate 1 default).set 0 value,
           size := v.size + 1, capacity := v.capacity + 1 }, 0)
  else if v.size = v.capacity then
    .ok ({ buffer := v.buffer.take dist ++ [value] ++ (v.buffer.take v.size).drop dist
             ++ List.replicate (2 * v.capacity - (v.size + 1)) default,
           size := v.size + 1, capacity := 2 * v.capacity }, dist)
  else
    .ok ({ v with buffer := (v.buffer.take dist ++ [value] ++ (v.buffer.take v.size).drop dist
                    ++ v.buffer.drop (v.size + 1)),
                  size := v.size + 1 }, dist)

/-- PopBack(): no-op when empty, otherwise --size_. -/
def PopBack (v : SimpleVector α) : SimpleVector α :=
  if v.size = 0 then v else { v with size := v.size - 1 }

/-- Erase(pos): pos represented by its distance dist from cbegin(); throws
std::out_of_range when dist >= size_ (dist is size_t in the source, so the
dist < 0 test there is vacuous).  Otherwise shifts the elements [dist+1,
size) one slot left — std::move on the overlapping ranges; the slot at
size-1 keeps its prior value in this value-level model — and decrements
size_.  Returns the new state paired with the returned iterator distance. -/
def Erase (v : SimpleVector α) (dist : Nat) :
    Except String (SimpleVector α × Nat) :=
  if dist ≥ v.size then .error "Erase(pos) -> pos out of range"
  else
    .ok ({ v with buffer := (v.buffer.take dist ++ (v.buffer.take v.size).drop (dist + 1)
                    ++ v.buffer.drop (v.size - 1)),
                  size := v.size - 1 }, dist)

/-- Copy constructor: allocates ArrayPtr(other.size_) — note: size_, not
capacity_ — copies the live elements into it, swaps it in, then copies
size_ and capacity_ from the source. -/
def copyCtor (other : SimpleVector α) : SimpleVector α :=
  { buffer := other.buffer.take other.size, size := other.size, capacity := other.capacity }

/-- Move constructor / move assignment between two distinct objects: the
buffers are swapped (the target previously held lhs.buffer, which the
source object receives), and size_/capacity_ are taken via std::exchange,
zeroing the source.  Returns (new lhs, new rhs). -/
def moveAssign (lhs rhs : SimpleVector α) : SimpleVector α × SimpleVector α :=
  ({ buffer := rhs.buffer, size := rhs.size, capacity := rhs.capacity },
   { buffer := lhs.buffer, size := 0, capacity := 0 })

/-- operator=(SimpleVector and rhs) executed with rhs aliasing this (self
move-assignment), statement by statement: arrayPtr_.swap(rhs.arrayPtr_) is
a self-swap leaving the buffer in place; size_ = std::exchange(size_, 0)
first stores 0 into size_ and returns the prior value, which the enclosing
assignment then writes back; likewise for capacity_. -/
def selfMoveAssign (v : SimpleVector α) : SimpleVector α :=
  let v1 : SimpleVector α := { v with buffer := v.buffer }
  let returnedSize := v1.size
  let v2 := { v1 with size := 0 }
  let v3 := { v2 with size := returnedSize }
  let returnedCap := v3.capacity
  let v4 := { v3 with capacity := 0 }
  { v4 with capacity := returnedCap }

/-- std::equal(first1, last1, first2): the three-iterator overload —
compares as many elements as the first range holds, reading the second
range unchecked.  When the second list is exhausted first, the source
reads past the second buffer; that out-of-range read is modelled as a
false result (no claim depends on that branch). -/
def stdEqual [DecidableEq α] : List α → List α → Bool
  | [], _ => true
  | _ :: _, [] => false
  | a :: as, b :: bs => a == b && stdEqual as bs

/-- std::lexicographical_compare(first1, last1, first2, last2). -/
def lexCompare [LinearOrder α] : List α → List α → Bool
  | _, [] => false
  | [], _ :: _ => true
  | a :: as, b :: bs => if a < b then true else if b < a then false else lexCompare as bs

/-- operator==: (addr lhs == addr rhs) || std::equal(lhs.begin(), lhs.end(),
rhs.begin()).  The address identity test is the Bool argument sameObject
(false for two distinct objects); std::equal walks the size_ live elements
of lhs against the raw buffer of rhs — no size comparison. -/
def eqOp [DecidableEq α] (sameObject : Bool) (lhs rhs : SimpleVector α) : Bool :=
  sameObject || stdEqual (live lhs) rhs.buffer

/-- operator!=: !(lhs == rhs). -/
def neOp [DecidableEq α] (sameObject : Bool) (lhs rhs : SimpleVector α) : Bool :=
  !(eqOp sameObject lhs rhs)

/-- operator<: std::lexicographical_compare over both live ranges. -/
def ltOp [LinearOrder α] (lhs rhs : SimpleVector α) : Bool :=
  lexCompare (live lhs) (live rhs)

/-- operator<=: (lhs < rhs) || (lhs == rhs). -/
def leOp [LinearOrder α] [DecidableEq α] (sameObject : Bool) (lhs rhs : SimpleVector α) : Bool :=
  ltOp lhs rhs || eqOp sameObject lhs rhs

/-- operator>=: !(lhs < rhs). -/
def geOp [LinearOrder α] (lhs rhs : SimpleVector α) : Bool :=
  !(ltOp lhs rhs)

/-- operator>: (lhs >= rhs) && (lhs != rhs). -/
def gtOp [LinearOrder α] [DecidableEq α] (sameObject : Bool) (lhs rhs : SimpleVector α) : Bool :=
  geOp lhs rhs && neOp sameObject lhs rhs

/-! Helper lemmas about list surgery, shared by the operation specifications. -/

theorem take_set_eq {l : List α} {n : Nat} (x : α) (h : n < l.length) :
    (l.set n x).take (n + 1) = l.take n ++ [x] := by
  rw [List.set_eq_take_append_cons_drop, if_pos h, List.take_append_eq_append_take]
  rw [List.take_take, List.length_take_of_le (Nat.le_of_lt h)]
  simp [Nat.min_eq_right (Nat.le_succ n)]

theorem take_of_prefix_len {a b : List α} {n : Nat} (h : a.length = n) :
    (a ++ b).take n = a :=
  List.take_left' h

/-- The live content has length size whenever the buffer is long enough. -/
theorem live_length {v : SimpleVector α} (h : v.size ≤ v.buffer.length) :
    (live v).length = v.size :=
  List.length_take_of_le h

/-- Reserve with a strictly larger capacity: the reallocation branch. -/
theorem reserve_grow [Inhabited α] {v : SimpleVector α} {n : Nat} (hn : v.capacity < n) :
    Reserve v n =
      { buffer := v.buffer.take v.size ++ List.replicate (n - v.size) default,
        size := v.size, capacity := n } := by
  unfold Reserve
  rw [if_neg (by omega)]

/-- Reserve with new_capacity <= capacity is a no-op. -/
theorem reserve_noop [Inhabited α] {v : SimpleVector α} {n : Nat} (hn : n ≤ v.capacity) :
    Reserve v n = v := by
  unfold Reserve
  rw [if_pos hn]

theorem reserve_wf [Inhabited α] {v : SimpleVector α} (n : Nat) (hw : Wf v) :
    Wf (Reserve v n) := by
  obtain ⟨hsc, hlen⟩ := hw
  by_cases hn : n ≤ v.capacity
  · rw [reserve_noop hn]; exact ⟨hsc, hlen⟩
  · rw [reserve_grow (by omega)]
    refine ⟨show v.size ≤ n by omega, ?_⟩
    show (v.buffer.take v.size ++ List.replicate (n - v.size) default).length = n
    rw [List.length_append, List.length_take_of_le (by omega), List.length_replicate]
    omega

theorem reserve_live [Inhabited α] {v : SimpleVector α} (n : Nat) (hw : Wf v) :
    live (Reserve v n) = live v := by
  obtain ⟨hsc, hlen⟩ := hw
  by_cases hn : n ≤ v.capacity
  · rw [reserve_noop hn]
  · rw [reserve_grow (by omega)]
    show (v.buffer.take v.size ++ List.replicate (n - v.size) default).take v.size
      = v.buffer.take v.size
    exact take_of_prefix_len (List.length_take_of_le (by omega))

theorem reserve_size [Inhabited α] {v : SimpleVector α} (n : Nat) :
    (Reserve v n).size = v.size := by
  by_cases hn : n ≤ v.capacity
  · rw [reserve_noop hn]
  · rw [reserve_grow (by omega)]

/-- The grow-and-retry branch of PushBack, written out as a record. -/
theorem pushBack_grow_eq [Inhabited α] {v : SimpleVector α} (x : α)
    (h : ¬ v.size < v.capacity) (hg : v.capacity < max (v.capacity * 2) 1)
    (hlt : v.size < max (v.capacity * 2) 1) :
    PushBack v x =
      { buffer := (v.buffer.take v.size
           ++ List.replicate (max (v.capacity * 2) 1 - v.size) default).set v.size x,
        size := v.size + 1, capacity := max (v.capacity * 2) 1 } := by
  unfold PushBack
  rw [if_neg h, reserve_grow hg]
  show (if v.size < max (v.capacity * 2) 1 then _ else _) = _
  rw [if_pos hlt]

/-- The single-step contract of PushBack on a well-formed vector. -/
theorem pushBack_spec [Inhabited α] {v : SimpleVector α} (x : α) (hw : Wf v) :
    (PushBack v x).size = v.size + 1 ∧
    (PushBack v x).capacity =
      (if v.size < v.capacity then v.capacity else max (v.capacity * 2) 1) ∧
    live (PushBack v x) = live v ++ [x] ∧
    Wf (PushBack v x) := by
  obtain ⟨hsc, hlen⟩ := hw
  by_cases h : v.size < v.capacity
  · unfold PushBack
    rw [if_pos h]
    refine ⟨rfl, by simp [h], ?_, ?_⟩
    · show (v.buffer.set v.size x).take (v.size + 1) = v.buffer.take v.size ++ [x]
      exact take_set_eq x (by omega)
    · refine ⟨show v.size + 1 ≤ v.capacity by omega, ?_⟩
      show (v.buffer.set v.size x).length = v.capacity
      rw [List.length_set, hlen]
  · have hg : v.capacity < max (v.capacity * 2) 1 := by omega
    have hlt : v.size < max (v.capacity * 2) 1 := by omega
    rw [pushBack_grow_eq x h hg hlt]
    have hblen : (v.buffer.take v.size ++
        List.replicate (max (v.capacity * 2) 1 - v.size) (default : α)).length =
        max (v.capacity * 2) 1 := by
      rw [List.length_append, List.length_take_of_le (by omega), List.length_replicate]
      omega
    refine ⟨rfl, by simp [h], ?_, ?_⟩
    · show ((v.buffer.take v.size ++ List.replicate (max (v.capacity * 2) 1 - v.size)
          default).set v.size x).take (v.size + 1) = v.buffer.take v.size ++ [x]
      rw [take_set_eq x (by rw [hblen]; omega)]
      rw [take_of_prefix_len (List.length_take_of_le (by omega))]
    · refine ⟨show v.size + 1 ≤ max (v.capacity * 2) 1 by omega, ?_⟩
      show ((v.buffer.take v.size ++ List.replicate (max (v.capacity * 2) 1 - v.size)
          default).set v.size x).length = max (v.capacity * 2) 1
      rw [List.length_set, hblen]

/-- The contract of a successful Insert on a well-formed vector. -/
theorem insert_ok [Inhabited α] {v : SimpleVector α} {dist : Nat} (value : α)
    (hw : Wf v) (hd : dist ≤ v.size) :
    ∃ w : SimpleVector α, Insert v dist value = .ok (w, dist) ∧
      w.size = v.size + 1 ∧
      w.capacity = (if v.capacity = 0 then 1 else
                    if v.size = v.capacity then 2 * v.capacity else v.capacity) ∧
      live w = (live v).take dist ++ [value] ++ (live v).drop dist ∧
      Wf w := by
  obtain ⟨hsc, hlen⟩ := hw
  have hA : (v.buffer.take dist).length = dist := List.length_take_of_le (by omega)
  have hB : ((v.buffer.take v.size).drop dist).length = v.size - dist := by
    rw [List.length_drop, List.length_take_of_le (by omega)]
  have hAMB : (v.buffer.take dist ++ [value] ++ (v.buffer.take v.size).drop dist).length
      = v.size + 1 := by
    rw [List.length_append, List.length_append, hA, hB]
    show dist + 1 + (v.size - dist) = v.size + 1
    omega
  have hliveEq : v.buffer.take dist ++ [value] ++ (v.buffer.take v.size).drop dist
      = (live v).take dist ++ [value] ++ (live v).drop dist := by
    show _ = (v.buffer.take v.size).take dist ++ [value] ++ (v.buffer.take v.size).drop dist
    rw [List.take_take, Nat.min_eq_left hd]
  unfold Insert
  rw [if_neg (by omega)]
  by_cases hc : v.capacity = 0
  · have hs0 : v.size = 0 := by omega
    have hd0 : dist = 0 := by omega
    rw [if_pos hc]
    subst hd0
    refine ⟨_, rfl, rfl, by simp [hc], ?_, ?_⟩
    · show ((List.replicate 1 default).set 0 value).take (v.size + 1)
        = (live v).take 0 ++ [value] ++ (live v).drop 0
      rw [hs0]
      show [value].take 1 = [] ++ [value] ++ (live v).drop 0
      unfold live
      rw [hs0]
      rfl
    · refine ⟨show v.size + 1 ≤ v.capacity + 1 by omega, ?_⟩
      show ((List.replicate 1 default).set 0 value).length = v.capacity + 1
      rw [List.length_set, List.length_replicate, hc]
  · rw [if_neg hc]
    by_cases hfull : v.size = v.capacity
    · rw [if_pos hfull]
      refine ⟨_, rfl, rfl, by simp [hc, hfull], ?_, ?_⟩
      · show (v.buffer.take dist ++ [value] ++ (v.buffer.take v.size).drop dist
            ++ List.replicate (2 * v.capacity - (v.size + 1)) default).take (v.size + 1)
          = (live v).take dist ++ [value] ++ (live v).drop dist
        rw [take_of_prefix_len hAMB, hliveEq]
      · refine ⟨show v.size + 1 ≤ 2 * v.capacity by omega, ?_⟩
        show (v.buffer.take dist ++ [value] ++ (v.buffer.take v.size).drop dist
            ++ List.replicate (2 * v.capacity - (v.size + 1)) default).length = 2 * v.capacity
        rw [List.length_append, hAMB, List.length_replicate]
        omega
    · rw [if_neg hfull]
      refine ⟨_, rfl, rfl, by simp [hc, hfull], ?_, ?_⟩
      · show (v.buffer.take dist ++ [value] ++ (v.buffer.take v.size).drop dist
            ++ v.buffer.drop (v.size + 1)).take (v.size + 1)
          = (live v).take dist ++ [value] ++ (live v).drop dist
        rw [take_of_prefix_len hAMB, hliveEq]
      · refine ⟨show v.size + 1 ≤ v.capacity by omega, ?_⟩
        show (v.buffer.take dist ++ [value] ++ (v.buffer.take v.size).drop dist
            ++ v.buffer.drop (v.size + 1)).length = v.capacity
        rw [List.length_append, hAMB, List.length_drop]
        omega

/-- The contract of a successful Erase on a well-formed vector. -/
theorem erase_ok {v : SimpleVector α} {dist : Nat} (hw : Wf v) (hd : dist < v.size) :
    ∃ w : SimpleVector α, Erase v dist = .ok (w, dist) ∧
      w.size = v.size - 1 ∧ w.capacity = v.capacity ∧
      live w = (live v).take dist ++ (live v).drop (dist + 1) ∧
      Wf w := by
  obtain ⟨hsc, hlen⟩ := hw
  have hA : (v.buffer.take dist).length = dist := List.length_take_of_le (by omega)
  have hB : ((v.buffer.take v.size).drop (dist + 1)).length = v.size - (dist + 1) := by
    rw [List.length_drop, List.length_take_of_le (by omega)]
  have hAB : (v.buffer.take dist ++ (v.buffer.take v.size).drop (dist + 1)).length
      = v.size - 1 := by
    rw [List.length_append, hA, hB]
    omega
  unfold Erase
  rw [if_neg (by omega)]
  refine ⟨_, rfl, rfl, rfl, ?_, ?_⟩
  · show (v.buffer.take dist ++ (v.buffer.take v.size).drop (dist + 1)
        ++ v.buffer.drop (v.size - 1)).take (v.size - 1)
      = (live v).take dist ++ (live v).drop (dist + 1)
    rw [take_of_prefix_len hAB]
    show _ = (v.buffer.take v.size).take dist ++ (v.buffer.take v.size).drop (dist + 1)
    rw [List.take_take, Nat.min_eq_left (by omega)]
  · refine ⟨show v.size - 1 ≤ v.capacity by omega, ?_⟩
    show (v.buffer.take dist ++ (v.buffer.take v.size).drop (dist + 1)
        ++ v.buffer.drop (v.size - 1)).length = v.capacity
    rw [List.length_append, hAB, List.length_drop]
    omega

/-- Folding PushBack over a value list: sizes add, the values land at the
back in order, and well-formedness is preserved. -/
theorem pushAll_spec [Inhabited α] (l : List α) (v : SimpleVector α) (hw : Wf v) :
    (pushAll v l).size = v.size + l.length ∧
    live (pushAll v l) = live v ++ l ∧
    Wf (pushAll v l) := by
  induction l generalizing v with
  | nil => exact ⟨rfl, by simp [pushAll], hw⟩
  | cons x xs ih =>
    obtain ⟨h1, _, h3, h4⟩ := pushBack_spec x hw
    obtain ⟨ih1, ih2, ih3⟩ := ih (PushBack v x) h4
    unfold pushAll at ih1 ih2 ih3 ⊢
    simp only [List.foldl_cons]
    refine ⟨?_, ?_, ih3⟩
    · rw [ih1, h1, List.length_cons]
      omega
    · rw [ih2, h3]
      simp

/-- The Bool returned by the lexicographical_compare loop agrees with the
standard lexicographic strict order on lists. -/
theorem lexCompare_iff_lex [LinearOrder α] (a b : List α) :
    lexCompare a b = true ↔ List.Lex (· < ·) a b := by
  induction a generalizing b with
  | nil =>
    cases b with
    | nil =>
      unfold lexCompare
      simp only [Bool.false_eq_true, false_iff]
      intro h
      cases h
    | cons y ys => simp [lexCompare, List.Lex.nil]
  | cons x xs ih =>
    cases b with
    | nil =>
      unfold lexCompare
      simp only [Bool.false_eq_true, false_iff]
      intro h
      cases h
    | cons y ys =>
      unfold lexCompare
      by_cases h1 : x < y
      · simp only [if_pos h1, true_iff]
        exact List.Lex.rel h1
      · rw [if_neg h1]
        by_cases h2 : y < x
        · simp only [if_pos h2, Bool.false_eq_true, false_iff]
          intro h
          cases h with
          | cons h => exact h2.ne rfl
          | rel h => exact h1 h
        · have hxy : x = y := le_antisymm (not_lt.mp h2) (not_lt.mp h1)
          subst hxy
          rw [if_neg h2, ih ys, List.Lex.cons_iff]

/-! The claims. -/

/-- C1: the claim says operator== returns true iff the two vectors have
equal size and pairwise equal elements, so that vectors of different sizes
are never equal.  The source compares no sizes: std::equal(lhs.begin(),
lhs.end(), rhs.begin()) walks only the lhs range, so the distinct vectors
[1,2] and [1,2,3] — sizes 2 and 3 — compare equal. -/
theorem c1_operator_eq_ignores_size :
    eqOp false (fromList ([1, 2] : List Int)) (fromList [1, 2, 3]) = true ∧
    (fromList ([1, 2] : List Int)).size ≠ (fromList ([1, 2, 3] : List Int)).size := by
  decide

/-- C2: the claim says copy construction allocates a buffer whose length
equals the source capacity.  The source allocates ArrayPtr(other.size_):
copying a vector of size 1 and capacity 2 yields buffer length 1 while the
copied capacity field reports 2, violating the claimed invariant. -/
theorem c2_copy_ctor_buffer_too_short :
    (copyCtor (PushBack (ofReserve 2 : SimpleVector Int) 5)).buffer.length = 1 ∧
    (copyCtor (PushBack (ofReserve 2 : SimpleVector Int) 5)).capacity = 2 := by
  decide

/-- C3: operator< agrees with the standard lexicographic strict order on
the live content sequences (List.Lex of the strict element order), for
every pair of vectors; in particular [1,2] < [1,2,3] (a proper prefix is
less) and [1,2,9] < [1,3] (the first differing element decides). -/
theorem c3_lt_is_lexicographic :
    (∀ a b : SimpleVector Int, ltOp a b = true ↔ List.Lex (· < ·) (live a) (live b)) ∧
    ltOp (fromList ([1, 2] : List Int)) (fromList [1, 2, 3]) = true ∧
    ltOp (fromList ([1, 2, 9] : List Int)) (fromList [1, 3]) = true := by
  refine ⟨fun a b => lexCompare_iff_lex _ _, by decide, by decide⟩

/-- C4 counterexample: the claim asserts a > b iff b < a.  Take a = [0]
(size 1) and b the vector of size 0 and capacity 1: b < a holds (empty is
a proper prefix), yet a > b evaluates to false, because the == the source
derives > from walks past the live range of b into its default-constructed
slot and reports a == b. -/
theorem c4_gt_disagrees_with_flipped_lt :
    ltOp (ofReserve 1 : SimpleVector Int) (fromList [0]) = true ∧
    gtOp false (fromList ([0] : List Int)) (ofReserve 1 : SimpleVector Int) = false := by
  decide

/-- C4 (amended): the derived comparisons satisfy exactly their derivations
from < and ==: a <= b iff (a < b or a == b), a >= b iff not (a < b), and
a > b iff (not (a < b) and not (a == b)); the further identification of
a > b with b < a fails because == performs no size check. -/
theorem c4_derived_comparisons :
    ∀ a b : SimpleVector Int,
      (leOp false a b = true ↔ (ltOp a b = true ∨ eqOp false a b = true)) ∧
      (geOp a b = true ↔ ¬ ltOp a b = true) ∧
      (gtOp false a b = true ↔ (¬ ltOp a b = true ∧ ¬ eqOp false a b = true)) := by
  intro a b
  refine ⟨?_, ?_, ?_⟩ <;>
    simp [leOp, geOp, gtOp, neOp, Bool.or_eq_true, Bool.and_eq_true]

/-- C5: Insert succeeds exactly for positions 0..size (position size means
append) and fails with the out-of-range error beyond; on success the size
grows by 1, the result holds the old content with value placed at the
requested position, the returned iterator designates the inserted element,
and the capacity follows the three cases: 1 from capacity 0, doubled when
size == capacity, unchanged otherwise. -/
theorem c5_insert_spec (v : SimpleVector Int) (dist : Nat) (value : Int) (hw : Wf v) :
    (v.size < dist → Insert v dist value = .error "Insert(pos, lvalue) -> pos out of range") ∧
    (dist ≤ v.size → ∃ w : SimpleVector Int, Insert v dist value = .ok (w, dist) ∧
      w.size = v.size + 1 ∧
      live w = (live v).take dist ++ [value] ++ (live v).drop dist ∧
      (live w).getD dist 0 = value ∧
      w.capacity = (if v.capacity = 0 then 1 else
                    if v.size = v.capacity then 2 * v.capacity else v.capacity)) := by
  obtain ⟨hsc, hlen⟩ := hw
  constructor
  · intro h
    unfold Insert
    rw [if_pos h]
  · intro h
    obtain ⟨w, h1, h2, h3, h4, -⟩ := insert_ok value ⟨hsc, hlen⟩ h
    refine ⟨w, h1, h2, h4, ?_, h3⟩
    rw [h4]
    have hA : ((live v).take dist).length = dist := by
      apply List.length_take_of_le
      rw [live_length (by omega : v.size ≤ v.buffer.length)]
      exact h
    rw [List.append_assoc, List.getD_append_right _ _ _ _ (le_of_eq hA), hA]
    simp

/-- C6: Erase succeeds exactly for positions 0..size-1 — erasing at the
logical end, in particular any position of an empty vector, fails with the
out-of-range error, and the source performs that check before touching any
state — and on success it shifts the elements after the position one slot
left in order, decrements the size by 1, keeps the capacity, and returns
the position of the element now occupying the erased slot. -/
theorem c6_erase_spec (v : SimpleVector Int) (dist : Nat) (hw : Wf v) :
    (v.size ≤ dist → Erase v dist = .error "Erase(pos) -> pos out of range") ∧
    (dist < v.size → ∃ w : SimpleVector Int, Erase v dist = .ok (w, dist) ∧
      w.size = v.size - 1 ∧ w.capacity = v.capacity ∧
      live w = (live v).take dist ++ (live v).drop (dist + 1)) := by
  constructor
  · intro h
    unfold Erase
    rw [if_pos h]
  · intro h
    obtain ⟨w, h1, h2, h3, h4, -⟩ := erase_ok hw h
    exact ⟨w, h1, h2, h3, h4⟩

/-- C7: PushBack appends the value — the size grows by 1, the previous
live content is preserved in order with the value placed at the old size —
growing the capacity to max(capacity*2, 1) exactly when size == capacity;
consequently k pushes starting from the empty vector produce size k, the
pushed values in order, and capacity at least k. -/
theorem c7_pushback_spec (v : SimpleVector Int) (x : Int) (hw : Wf v) :
    ((PushBack v x).size = v.size + 1 ∧
     live (PushBack v x) = live v ++ [x] ∧
     (PushBack v x).capacity =
       (if v.size < v.capacity then v.capacity else max (v.capacity * 2) 1)) ∧
    (∀ l : List Int, (pushAll emptyVec l).size = l.length ∧
      live (pushAll emptyVec l) = l ∧
      l.length ≤ (pushAll emptyVec l).capacity) := by
  obtain ⟨h1, h2, h3, -⟩ := pushBack_spec x hw
  refine ⟨⟨h1, h3, h2⟩, fun l => ?_⟩
  obtain ⟨g1, g2, g3⟩ := pushAll_spec l emptyVec ⟨Nat.le_refl 0, rfl⟩
  have hsize : (pushAll (emptyVec : SimpleVector Int) l).size = l.length := by
    rw [g1]
    simp [emptyVec]
  refine ⟨hsize, by rw [g2]; rfl, ?_⟩
  rw [← hsize]
  exact g3.1

/-- C8: Resize shrinks logically when newSize <= size; fills the newly
exposed slots with default-constructed values within capacity; and past
the capacity first grows it to max(newSize, 2*capacity), preserving the
first size elements and filling the rest with defaults. -/
theorem c8_resize_spec (v : SimpleVector Int) (n : Nat) (hw : Wf v) :
    (n ≤ v.size → (Resize v n).size = n ∧ live (Resize v n) = (live v).take n ∧
      (Resize v n).capacity = v.capacity) ∧
    (v.size < n → n ≤ v.capacity → (Resize v n).size = n ∧
      live (Resize v n) = live v ++ List.replicate (n - v.size) default ∧
      (Resize v n).capacity = v.capacity) ∧
    (v.capacity < n → (Resize v n).size = n ∧
      (Resize v n).capacity = max n (2 * v.capacity) ∧
      live (Resize v n) = live v ++ List.replicate (n - v.size) default) := by
  obtain ⟨hsc, hlen⟩ := hw
  refine ⟨?_, ?_, ?_⟩
  · intro h
    unfold Resize
    rw [if_pos h]
    refine ⟨rfl, ?_, rfl⟩
    show v.buffer.take n = (v.buffer.take v.size).take n
    rw [List.take_take, Nat.min_eq_left h]
  · intro h1 h2
    unfold Resize
    rw [if_neg (by omega), if_pos h2]
    refine ⟨rfl, ?_, rfl⟩
    show (fillRange v.buffer v.size n default).take n
      = live v ++ List.replicate (n - v.size) default
    unfold fillRange
    have hA : (v.buffer.take v.size).length = v.size :=
      List.length_take_of_le (by omega)
    rw [take_of_prefix_len (by rw [List.length_append, hA, List.length_replicate]; omega)]
    rfl
  · intro h
    have hg : v.capacity < max n (2 * v.capacity) := by omega
    unfold Resize
    rw [if_neg (by omega), if_neg (by omega)]
    refine ⟨rfl, ?_, ?_⟩
    · show (Reserve v (max n (2 * v.capacity))).capacity = max n (2 * v.capacity)
      rw [reserve_grow hg]
    · show (fillRange (Reserve v (max n (2 * v.capacity))).buffer
          (Reserve v (max n (2 * v.capacity))).size n default).take n
        = live v ++ List.replicate (n - v.size) default
      rw [reserve_grow hg]
      show (fillRange (v.buffer.take v.size
          ++ List.replicate (max n (2 * v.capacity) - v.size) default) v.size n default).take n
        = live v ++ List.replicate (n - v.size) default
      unfold fillRange
      have hA : (v.buffer.take v.size).length = v.size :=
        List.length_take_of_le (by omega)
      have hWtake : (v.buffer.take v.size
          ++ List.replicate (max n (2 * v.capacity) - v.size) (default : Int)).take v.size
          = v.buffer.take v.size := take_of_prefix_len hA
      rw [take_of_prefix_len (by rw [List.length_append, hWtake, hA, List.length_replicate]; omega)]
      rw [hWtake]
      rfl

/-- C9: inserting a value at any valid position and then erasing at the
position Insert returns restores the original size and live content. -/
theorem c9_insert_erase_roundtrip (v : SimpleVector Int) (p : Nat) (x : Int)
    (hw : Wf v) (hp : p ≤ v.size) :
    ∃ w : SimpleVector Int, ∃ ret : Nat, Insert v p x = .ok (w, ret) ∧
      ∃ u : SimpleVector Int, ∃ ret2 : Nat, Erase w ret = .ok (u, ret2) ∧
        u.size = v.size ∧ live u = live v := by
  obtain ⟨hsc, hlen⟩ := hw
  obtain ⟨w, h1, h2, h3, h4, h5⟩ := insert_ok x ⟨hsc, hlen⟩ hp
  refine ⟨w, p, h1, ?_⟩
  obtain ⟨u, g1, g2, g3, g4, -⟩ := erase_ok h5 (show p < w.size by omega)
  refine ⟨u, p, g1, by omega, ?_⟩
  rw [g4, h4]
  have hlv : (live v).length = v.size := live_length (by omega)
  have hA : ((live v).take p).length = p := by
    apply List.length_take_of_le
    omega
  rw [List.drop_left' (show ((live v).take p ++ [x]).length = p + 1 by
        rw [List.length_append, hA]
        rfl)]
  rw [List.append_assoc, take_of_prefix_len hA]
  exact (List.take_append_drop p (live v))

/-- C10: self move-assignment executed statement by statement is the
identity: the buffer self-swap leaves the buffer in place, and each
exchange-then-assign of size_ and capacity_ writes the original value
back, so the vector is unchanged even though no identity check guards
the move-assignment operator. -/
theorem c10_self_move_assign (v : SimpleVector α) : selfMoveAssign v = v := rfl

/-! Witnesses: each hypothesis-bearing claim theorem applied at a concrete
input. -/

/-- Witness for C5 at the vector [1,2,3], position 1, value 9. -/
theorem c5_insert_spec_witness :
    Wf (fromList ([1, 2, 3] : List Int)) ∧
    (∃ w : SimpleVector Int, Insert (fromList ([1, 2, 3] : List Int)) 1 9 = .ok (w, 1) ∧
      live w = [1, 9, 2, 3] ∧ w.capacity = 6) := by
  refine ⟨by decide, ?_⟩
  obtain ⟨-, h⟩ := c5_insert_spec (fromList ([1, 2, 3] : List Int)) 1 9 (by decide)
  obtain ⟨w, h1, -, h3, -, h5⟩ := h (by decide)
  refine ⟨w, h1, ?_, ?_⟩
  · rw [h3]
    decide
  · rw [h5]
    decide

/-- Witness for C6 at the vector [1,9,2,3]: erasing position 2 succeeds
and leaves [1,9,3]; erasing position 4 (the logical end) fails. -/
theorem c6_erase_spec_witness :
    Wf (fromList ([1, 9, 2, 3] : List Int)) ∧
    (∃ w : SimpleVector Int, Erase (fromList ([1, 9, 2, 3] : List Int)) 2 = .ok (w, 2) ∧
      w.size = 3 ∧ live w = [1, 9, 3]) ∧
    Erase (fromList ([1, 9, 2, 3] : List Int)) 4 = .error "Erase(pos) -> pos out of range" := by
  refine ⟨by decide, ?_, ?_⟩
  · obtain ⟨-, h⟩ := c6_erase_spec (fromList ([1, 9, 2, 3] : List Int)) 2 (by decide)
    obtain ⟨w, h1, h2, -, h4⟩ := h (by decide)
    refine ⟨w, h1, ?_, ?_⟩
    · rw [h2]
      decide
    · rw [h4]
      decide
  · exact (c6_erase_spec (fromList ([1, 9, 2, 3] : List Int)) 4 (by decide)).1 (by decide)

/-- Witness for C7: pushing 7 onto [1,2], and pushing 1,2,3 onto the empty
vector. -/
theorem c7_pushback_spec_witness :
    Wf (fromList ([1, 2] : List Int)) ∧
    live (PushBack (fromList ([1, 2] : List Int)) 7) = [1, 2, 7] ∧
    (pushAll (emptyVec : SimpleVector Int) [1, 2, 3]).size = 3 ∧
    live (pushAll (emptyVec : SimpleVector Int) [1, 2, 3]) = [1, 2, 3] ∧
    3 ≤ (pushAll (emptyVec : SimpleVector Int) [1, 2, 3]).capacity := by
  obtain ⟨⟨-, hlive, -⟩, hall⟩ := c7_pushback_spec (fromList ([1, 2] : List Int)) 7 (by decide)
  obtain ⟨g1, g2, g3⟩ := hall [1, 2, 3]
  refine ⟨by decide, ?_, g1, g2, g3⟩
  rw [hlive]
  decide

/-- Witness for C8 at a vector with size 1 and capacity 4 (a push onto a
reserve-constructed vector), exercising all three Resize branches. -/
theorem c8_resize_spec_witness :
    Wf (PushBack (ofReserve 4 : SimpleVector Int) 5) ∧
    live (Resize (PushBack (ofReserve 4 : SimpleVector Int) 5) 0) = [] ∧
    live (Resize (PushBack (ofReserve 4 : SimpleVector Int) 5) 3) = [5, 0, 0] ∧
    (Resize (PushBack (ofReserve 4 : SimpleVector Int) 5) 9).capacity = 9 ∧
    live (Resize (PushBack (ofReserve 4 : SimpleVector Int) 5) 9)
      = [5, 0, 0, 0, 0, 0, 0, 0, 0] := by
  obtain ⟨b1, -, -⟩ := c8_resize_spec (PushBack (ofReserve 4 : SimpleVector Int) 5) 0 (by decide)
  obtain ⟨-, b2, -⟩ := c8_resize_spec (PushBack (ofReserve 4 : SimpleVector Int) 5) 3 (by decide)
  obtain ⟨-, -, b3⟩ := c8_resize_spec (PushBack (ofReserve 4 : SimpleVector Int) 5) 9 (by decide)
  obtain ⟨-, hb1, -⟩ := b1 (by decide)
  obtain ⟨-, hb2, -⟩ := b2 (by decide) (by decide)
  obtain ⟨-, hc3, hl3⟩ := b3 (by decide)
  refine ⟨by decide, ?_, ?_, ?_, ?_⟩
  · rw [hb1]
    decide
  · rw [hb2]
    decide
  · rw [hc3]
    decide
  · rw [hl3]
    decide

/-- Witness for C9: inserting 8 at position 1 of [4,5,6] and erasing at
the returned position restores size 3 and content [4,5,6]. -/
theorem c9_roundtrip_witness :
    Wf (fromList ([4, 5, 6] : List Int)) ∧ 1 ≤ (fromList ([4, 5, 6] : List Int)).size ∧
    (∃ w : SimpleVector Int, ∃ ret : Nat,
      Insert (fromList ([4, 5, 6] : List Int)) 1 8 = .ok (w, ret) ∧
      ∃ u : SimpleVector Int, ∃ ret2 : Nat, Erase w ret = .ok (u, ret2) ∧
        u.size = 3 ∧ live u = [4, 5, 6]) := by
  refine ⟨by decide, by decide, ?_⟩
  obtain ⟨w, ret, h1, u, ret2, h2, h3, h4⟩ :=
    c9_insert_erase_roundtrip (fromList ([4, 5, 6] : List Int)) 1 8 (by decide) (by decide)
  exact ⟨w, ret, h1, u, ret2, h2, h3, by rw [h4]; decide⟩

end SVec
